import Mathlib

/-!
Shallow embedding of `src/train.py` (YD-MultiTarget-Detection-Tracking), a
single video-action-classification training script, together with proofs of
the behavioral properties of its data pipeline, model shapes, and loops.

Conventions of the embedding:
* Python strings are `List Char`; `os.path.join a b` is `a ++ '/' :: b`.
* Decoded video frames (after `cv2.resize`) are nested lists
  `height × width × channel` of natural-number pixel values; normalization
  divides by `255` in `ℚ`.
* Machine floats are modelled as `ℚ`; Python `/` is `pyDiv`, an `Except`
  that mirrors `ZeroDivisionError`.
* Fallible operations (`np.pad` shape mismatch, tensor-shape mismatches,
  division by zero) return `Except String`.
-/

/-! ## Python strings -/

abbrev Str := List Char

/-- `os.path.join a b` for relative `b` (the only use in train.py). -/
def pjoin (a b : Str) : Str := a ++ '/' :: b

/-- The literal suffix checked by `video_name.endswith(".avi")`. -/
def aviSuffix : Str := ['.', 'a', 'v', 'i']

/-- `video_name.endswith(".avi")` from train.py line 97. -/
def endsWithAvi (s : Str) : Bool := decide (aviSuffix <:+ s)

/-! ## VideoDataset.__getitem__ (train.py lines 39-62)

A decoded, resized frame is a `height × width × channel` grid of pixel
values (`cv2.read` yields `uint8` values `0..255`; the resize loop of
lines 44-50 has already run, so `__getitem__`'s tensor logic receives the
list of resized frames). -/

abbrev Image := List (List (List Nat))

abbrev ImageQ := List (List (List ℚ))

/-- Line 53: `torch.tensor(frames, dtype=torch.float32) / 255.0`, per frame. -/
def normalizeImage (img : Image) : ImageQ :=
  img.map (fun row => row.map (fun px => px.map (fun p : Nat => (p : ℚ) / 255)))

/-- An all-zero frame of the same shape as `img`: the constant padding that
`np.pad(..., mode='constant', constant_values=0)` (line 57) appends, whose
shape is taken from the existing frames of the stacked array. -/
def zeroLike (img : ImageQ) : ImageQ :=
  img.map (fun row => row.map (fun px => px.map (fun _ => (0 : ℚ))))

/-- Line 61: `frames.permute(0, 3, 1, 2)` acting on one frame: the
`(h, w, c)` grid becomes a `(c, h, w)` grid.  The channel count is the
length of the pixel vectors (axis 3 of the stacked array). -/
def permuteImg (img : ImageQ) : ImageQ :=
  (List.range ((img.headD []).headD []).length).map
    (fun ch => img.map (fun row => row.map (fun px => px.getD ch 0)))

/-- `VideoDataset.__getitem__` from the point where the decode loop has
produced the list `decoded` of resized frames (lines 52-62).

* `decoded = []` and `len < F`: `np.pad` receives the 1-D empty array
  `np.array([])` with a 4-axis pad specification and raises `ValueError`.
* `decoded = []` and `F = 0`: the 1-D empty tensor reaches
  `permute(0, 3, 1, 2)`, which needs 4 dimensions and raises.
* otherwise: pad with all-zero frames to length `F`, or truncate to the
  first `F` frames, then permute each frame to `(c, h, w)`. -/
def getItem (F : Nat) (decoded : List Image) : Except String (List ImageQ) :=
  let frames := decoded.map normalizeImage
  if frames.length < F then
    match frames with
    | [] => .error "ValueError: operands could not be broadcast together"
    | f :: fs =>
        .ok (((f :: fs) ++ List.replicate (F - frames.length) (zeroLike f)).map permuteImg)
  else
    let frames2 := if F < frames.length then frames.take F else frames
    match frames with
    | [] => .error "RuntimeError: permute dims length mismatch"
    | _ :: _ => .ok (frames2.map permuteImg)

/-- `true` iff the `__getitem__` computation returned a tensor. -/
def gotTensor (r : Except String (List ImageQ)) : Bool :=
  match r with
  | .ok _ => true
  | .error _ => false

/-! ### Helper lemmas about the frame pipeline -/

theorem getD_map_const_zero {β : Type} (l : List β) (ch : Nat) :
    (l.map (fun _ => (0 : ℚ))).getD ch 0 = 0 := by
  rw [List.getD_eq_getElem?_getD, List.getElem?_map]
  rcases l[ch]? with _ | v <;> rfl

/-- Every entry of a permuted all-zero frame is `0`. -/
theorem permute_zeroLike_allZero (x : ImageQ) :
    ∀ plane ∈ permuteImg (zeroLike x), ∀ row ∈ plane, ∀ v ∈ row, v = 0 := by
  intro plane hplane row hrow v hv
  simp only [permuteImg, List.mem_map, List.mem_range] at hplane
  obtain ⟨ch, -, rfl⟩ := hplane
  simp only [zeroLike, List.map_map, List.mem_map, Function.comp] at hrow
  obtain ⟨r, -, rfl⟩ := hrow
  simp only [List.map_map, List.mem_map, Function.comp] at hv
  obtain ⟨px, -, rfl⟩ := hv
  exact getD_map_const_zero px ch

/-- Closed form of `__getitem__` on a non-empty decode: the first `F`
normalized frames (in order), right-padded with permuted all-zero frames up
to length `F`. -/
theorem getItem_cons (F : Nat) (f0 : Image) (fs : List Image) :
    getItem F (f0 :: fs) =
      .ok (((f0 :: fs).take F).map (fun i => permuteImg (normalizeImage i)) ++
        List.replicate (F - (f0 :: fs).length)
          (permuteImg (zeroLike (normalizeImage f0)))) := by
  simp only [getItem, List.map_cons, List.length_cons, List.length_map]
  by_cases h : fs.length + 1 < F
  · rw [if_pos h]
    have htake : (f0 :: fs).take F = f0 :: fs := by
      apply List.take_of_length_le
      simp only [List.length_cons]
      omega
    rw [htake]
    simp [List.map_append, List.map_replicate, List.map_map, Function.comp_def]
  · rw [if_neg h]
    have hz : F - (fs.length + 1) = 0 := by omega
    rw [hz]
    simp only [List.replicate_zero, List.append_nil]
    by_cases h2 : F < fs.length + 1
    · rw [if_pos h2]
      simp [List.map_take, List.map_map, Function.comp_def]
    · rw [if_neg h2]
      have hF : F = fs.length + 1 := by omega
      subst hF
      have htake : (f0 :: fs).take (fs.length + 1) = f0 :: fs := by
        apply List.take_of_length_le
        simp
      rw [htake]
      simp [List.map_map, Function.comp_def]

/-! ### Claims C1 and C3 -/

/-- C1, counterexample: a video whose decode yields L = 0 frames (with the
default fixed_frame_count F = 100) does not get a length-F zero-padded
tensor: `__getitem__` raises a ValueError from `np.pad`, because the stacked
array of zero frames is 1-dimensional while the pad specification has four
axes. -/
theorem c1_cex_zero_decode_raises :
    getItem 100 [] = .error "ValueError: operands could not be broadcast together" := rfl

/-- C1 (amended to decodes with at least one frame): for every video whose
decode yields L ≥ 1 frames, `__getitem__` returns a frame tensor of temporal
length exactly F: the first `min L F` entries are the decoded (resized,
normalized, axis-permuted) frames in their original order, and the remaining
`F − L` entries (present when L < F) are all-zero padding appended at the
tail. -/
theorem c1_getitem_length_pad_truncate (F : Nat) (f0 : Image) (fs : List Image) :
    getItem F (f0 :: fs) =
      .ok (((f0 :: fs).take F).map (fun i => permuteImg (normalizeImage i)) ++
        List.replicate (F - (f0 :: fs).length)
          (permuteImg (zeroLike (normalizeImage f0)))) ∧
    (((f0 :: fs).take F).map (fun i => permuteImg (normalizeImage i)) ++
        List.replicate (F - (f0 :: fs).length)
          (permuteImg (zeroLike (normalizeImage f0)))).length = F ∧
    ∀ frame ∈ List.replicate (F - (f0 :: fs).length)
        (permuteImg (zeroLike (normalizeImage f0))),
      ∀ plane ∈ frame, ∀ row ∈ plane, ∀ v ∈ row, v = (0 : ℚ) := by
  refine ⟨getItem_cons F f0 fs, ?_, ?_⟩
  · simp only [List.length_append, List.length_map, List.length_take,
      List.length_replicate, List.length_cons]
    omega
  · intro frame hframe
    rw [List.eq_of_mem_replicate hframe]
    exact permute_zeroLike_allZero (normalizeImage f0)

/-- C3, counterexample: an unreadable video (decode yields zero frames) does
not produce an all-zero fully-padded tensor; the `__getitem__` computation
signals an error instead. -/
theorem c3_cex_unreadable_not_silent :
    gotTensor (getItem 100 []) = false := rfl

/-- A zero-frame decode always makes `__getitem__` raise. -/
theorem getItem_nil_errors (F : Nat) : gotTensor (getItem F []) = false := by
  cases F with
  | zero => rfl
  | succ n =>
      simp only [getItem, List.map_nil, List.length_nil]
      rw [if_pos (Nat.succ_pos n)]
      rfl

/-- C3 (amended): for every fixed_frame_count F, a video file that cannot be
read (decode yields zero frames) makes `__getitem__` raise — a ValueError
from `np.pad` when F > 0 (4-axis pad widths on the 1-dimensional empty
array), and a RuntimeError from `permute(0,3,1,2)` when F = 0 — rather than
returning an all-zero padded tensor. -/
theorem c3_zero_decode_always_errors (F : Nat) :
    gotTensor (getItem F []) = false :=
  getItem_nil_errors F

/-! ### Claim C7: pixel values -/

/-- Shape well-formedness of a decoded frame: `h` rows of `w` pixels of `c`
channel values.  After `cv2.resize(frame, (224, 224))` every decoded frame
satisfies `imageWF 224 224 3`. -/
abbrev imageWF (h w c : Nat) (img : Image) : Prop :=
  img.length = h ∧ ∀ row ∈ img, row.length = w ∧ ∀ px ∈ row, px.length = c

/-- Entry `out[t][ch][i][j]` of the returned `(time, channel, h, w)` tensor. -/
def tensorEntry (out : List ImageQ) (t ch i j : Nat) : ℚ :=
  (((out.getD t []).getD ch []).getD i []).getD j 0

/-- Entry `decoded[t][i][j][ch]` of the decoded `(time, h, w, channel)`
frame stack. -/
def decodedPixel (decoded : List Image) (t i j ch : Nat) : Nat :=
  (((decoded.getD t []).getD i []).getD j []).getD ch 0

theorem getD_map_of_lt {α β : Type} (f : α → β) (l : List α) (n : Nat)
    (hn : n < l.length) (d : β) (d' : α) :
    (l.map f).getD n d = f (l.getD n d') := by
  rw [List.getD_eq_getElem?_getD, List.getElem?_map, List.getElem?_eq_getElem hn,
    Option.map_some', Option.getD_some, List.getD_eq_getElem?_getD,
    List.getElem?_eq_getElem hn, Option.getD_some]

theorem map3_getD {α β : Type} (f : α → β) (img : List (List (List α)))
    (i j ch : Nat) (d : β) (d' : α)
    (hi : i < img.length) (hj : j < (img.getD i []).length)
    (hch : ch < ((img.getD i []).getD j []).length) :
    (((img.map (fun row => row.map (fun px => px.map f))).getD i []).getD j []).getD ch d
      = f (((img.getD i []).getD j []).getD ch d') := by
  rw [getD_map_of_lt (fun row => row.map (fun px => px.map f)) img i hi [] []]
  rw [getD_map_of_lt (fun px => px.map f) (img.getD i []) j hj [] []]
  rw [getD_map_of_lt f ((img.getD i []).getD j []) ch hch d d']

theorem permuteImg_entry (img : ImageQ) (h w c ch i j : Nat)
    (hlen : img.length = h)
    (hrow : ∀ row ∈ img, row.length = w ∧ ∀ px ∈ row, px.length = c)
    (hch : ch < c) (hi : i < h) (hj : j < w) :
    (((permuteImg img).getD ch []).getD i []).getD j 0 =
      ((img.getD i []).getD j []).getD ch 0 := by
  have hipos : i < img.length := by omega
  rcases img with _ | ⟨r0, rest⟩
  · simp at hlen; omega
  obtain ⟨hr0len, hr0px⟩ := hrow r0 (List.mem_cons_self _ _)
  rcases r0 with _ | ⟨p0, ps⟩
  · simp at hr0len; omega
  have hp0 : p0.length = c := hr0px p0 (List.mem_cons_self _ _)
  have hmem : ((p0 :: ps) :: rest : ImageQ).getD i [] ∈ ((p0 :: ps) :: rest : ImageQ) := by
    rw [List.getD_eq_getElem?_getD, List.getElem?_eq_getElem hipos, Option.getD_some]
    exact List.getElem_mem hipos
  have hjrow : j < (((p0 :: ps) :: rest : ImageQ).getD i []).length := by
    rw [(hrow _ hmem).1]; exact hj
  have hchr : ch < (List.range c).length := by simpa using hch
  simp only [permuteImg, List.headD_cons, hp0]
  rw [getD_map_of_lt _ (List.range c) ch hchr [] 0]
  have hr : (List.range c).getD ch 0 = ch := by
    rw [List.getD_eq_getElem?_getD, List.getElem?_range hch, Option.getD_some]
  rw [hr]
  rw [getD_map_of_lt _ ((p0 :: ps) :: rest : ImageQ) i hipos [] []]
  rw [getD_map_of_lt _ (((p0 :: ps) :: rest : ImageQ).getD i []) j hjrow 0 []]

theorem getD_mem {α : Type} (l : List α) (n : Nat) (d : α) (hn : n < l.length) :
    l.getD n d ∈ l := by
  rw [List.getD_eq_getElem?_getD, List.getElem?_eq_getElem hn, Option.getD_some]
  exact List.getElem_mem hn

theorem map3_shape {α β : Type} (f : α → β) (img : List (List (List α))) (h w c : Nat)
    (hlen : img.length = h)
    (hrow : ∀ row ∈ img, row.length = w ∧ ∀ px ∈ row, px.length = c) :
    (img.map (fun row => row.map (fun px => px.map f))).length = h ∧
      ∀ row ∈ img.map (fun row => row.map (fun px => px.map f)),
        row.length = w ∧ ∀ px ∈ row, px.length = c := by
  refine ⟨by simpa using hlen, ?_⟩
  intro row hrowm
  simp only [List.mem_map] at hrowm
  obtain ⟨r, hr, rfl⟩ := hrowm
  obtain ⟨hrl, hpx⟩ := hrow r hr
  refine ⟨by simpa using hrl, ?_⟩
  intro px hpxm
  simp only [List.mem_map] at hpxm
  obtain ⟨p, hp, rfl⟩ := hpxm
  simpa using hpx p hp

theorem getItemOut_getD_lt (F : Nat) (f0 : Image) (fs : List Image) (t : Nat)
    (ht : t < F) (htL : t < (f0 :: fs).length) :
    (((f0 :: fs).take F).map (fun i => permuteImg (normalizeImage i)) ++
      List.replicate (F - (f0 :: fs).length)
        (permuteImg (zeroLike (normalizeImage f0)))).getD t []
      = permuteImg (normalizeImage ((f0 :: fs).getD t [])) := by
  have htA : t < (((f0 :: fs).take F).map
      (fun i => permuteImg (normalizeImage i))).length := by
    simp only [List.length_map, List.length_take]
    simp only [List.length_cons] at htL ⊢
    omega
  rw [List.getD_eq_getElem?_getD, List.getElem?_append_left htA, List.getElem?_map,
    List.getElem?_take_of_lt ht, List.getElem?_eq_getElem htL, Option.map_some',
    Option.getD_some]
  rw [List.getD_eq_getElem?_getD, List.getElem?_eq_getElem htL, Option.getD_some]

theorem getItemOut_getD_ge (F : Nat) (f0 : Image) (fs : List Image) (t : Nat)
    (ht : t < F) (htL : (f0 :: fs).length ≤ t) :
    (((f0 :: fs).take F).map (fun i => permuteImg (normalizeImage i)) ++
      List.replicate (F - (f0 :: fs).length)
        (permuteImg (zeroLike (normalizeImage f0)))).getD t []
      = permuteImg (zeroLike (normalizeImage f0)) := by
  have hAlen : (((f0 :: fs).take F).map
      (fun i => permuteImg (normalizeImage i))).length = (f0 :: fs).length := by
    simp only [List.length_map, List.length_take, List.length_cons]
    simp only [List.length_cons] at htL
    omega
  have htA : (((f0 :: fs).take F).map
      (fun i => permuteImg (normalizeImage i))).length ≤ t := by rw [hAlen]; exact htL
  rw [List.getD_eq_getElem?_getD, List.getElem?_append_right htA, hAlen]
  have hrep : t - (f0 :: fs).length < F - (f0 :: fs).length := by
    simp only [List.length_cons] at htL ⊢
    omega
  rw [List.getElem?_replicate_of_lt hrep, Option.getD_some]

/-- C7: every pixel value of the tensor returned by `__getitem__` equals the
original decoded pixel value divided by 255, positionally — output entry
`[t][ch][i][j]` equals decoded pixel `[t][i][j][ch] / 255` for decoded time
steps `t` and `0` for padded time steps — and therefore lies in `[0, 1]`
(decoded pixels are `uint8` values, bounded by 255). -/
theorem c7_pixel_normalization (F h w c : Nat) (decoded : List Image)
    (out : List ImageQ)
    (hwf : ∀ img ∈ decoded, imageWF h w c img)
    (hbound : ∀ img ∈ decoded, ∀ row ∈ img, ∀ px ∈ row, ∀ p ∈ px, p ≤ 255)
    (hok : getItem F decoded = .ok out) :
    ∀ t < F, ∀ ch < c, ∀ i < h, ∀ j < w,
      (tensorEntry out t ch i j =
        if t < decoded.length then (decodedPixel decoded t i j ch : ℚ) / 255 else 0) ∧
      0 ≤ tensorEntry out t ch i j ∧ tensorEntry out t ch i j ≤ 1 := by
  intro t ht ch hch i hi j hj
  rcases decoded with _ | ⟨f0, fs⟩
  · exfalso
    have hng := getItem_nil_errors F
    rw [hok] at hng
    simp [gotTensor] at hng
  rw [getItem_cons] at hok
  injection hok with hA
  subst hA
  have hwf0 := hwf f0 (List.mem_cons_self _ _)
  by_cases htL : t < (f0 :: fs).length
  · -- a decoded time step
    have himg : (f0 :: fs).getD t [] ∈ (f0 :: fs) := getD_mem _ _ _ htL
    obtain ⟨hIlen, hIrow⟩ := hwf _ himg
    have hnshape := map3_shape (fun p : Nat => (p : ℚ) / 255) ((f0 :: fs).getD t [])
      h w c hIlen hIrow
    have hn1 : (normalizeImage ((f0 :: fs).getD t [])).length = h := hnshape.1
    have hn2 : ∀ row ∈ normalizeImage ((f0 :: fs).getD t []),
        row.length = w ∧ ∀ px ∈ row, px.length = c := hnshape.2
    have hrow0 : ((f0 :: fs).getD t []).getD i [] ∈ (f0 :: fs).getD t [] :=
      getD_mem _ _ _ (by rw [hIlen]; exact hi)
    have hrlen : (((f0 :: fs).getD t []).getD i []).length = w := (hIrow _ hrow0).1
    have hpx0 : ((((f0 :: fs).getD t []).getD i []).getD j []) ∈
        ((f0 :: fs).getD t []).getD i [] :=
      getD_mem _ _ _ (by rw [hrlen]; exact hj)
    have hpxlen : (((((f0 :: fs).getD t []).getD i []).getD j [])).length = c :=
      (hIrow _ hrow0).2 _ hpx0
    have hentry : tensorEntry
        (((f0 :: fs).take F).map (fun i => permuteImg (normalizeImage i)) ++
          List.replicate (F - (f0 :: fs).length)
            (permuteImg (zeroLike (normalizeImage f0)))) t ch i j =
        (decodedPixel (f0 :: fs) t i j ch : ℚ) / 255 := by
      simp only [tensorEntry]
      rw [getItemOut_getD_lt F f0 fs t ht htL]
      rw [permuteImg_entry (normalizeImage ((f0 :: fs).getD t [])) h w c ch i j
        hn1 hn2 hch hi hj]
      simp only [normalizeImage]
      rw [map3_getD (fun p : Nat => (p : ℚ) / 255) ((f0 :: fs).getD t []) i j ch 0 0
        (by rw [hIlen]; exact hi) (by rw [hrlen]; exact hj) (by rw [hpxlen]; exact hch)]
      simp only [decodedPixel]
    rw [hentry, if_pos htL]
    have hple : decodedPixel (f0 :: fs) t i j ch ≤ 255 := by
      have hpmem : ((((f0 :: fs).getD t []).getD i []).getD j []).getD ch 0 ∈
          (((f0 :: fs).getD t []).getD i []).getD j [] :=
        getD_mem _ _ _ (by rw [hpxlen]; exact hch)
      exact hbound _ himg _ hrow0 _ hpx0 _ hpmem
    refine ⟨rfl, by positivity, ?_⟩
    rw [div_le_one (by norm_num)]
    exact_mod_cast hple
  · -- a padded time step
    push_neg at htL
    have hnshape0 := map3_shape (fun p : Nat => (p : ℚ) / 255) f0 h w c hwf0.1 hwf0.2
    have hn1 : (normalizeImage f0).length = h := hnshape0.1
    have hn2 : ∀ row ∈ normalizeImage f0,
        row.length = w ∧ ∀ px ∈ row, px.length = c := hnshape0.2
    have hzshape := map3_shape (fun _ => (0 : ℚ)) (normalizeImage f0) h w c hn1 hn2
    have hz1 : (zeroLike (normalizeImage f0)).length = h := hzshape.1
    have hz2 : ∀ row ∈ zeroLike (normalizeImage f0),
        row.length = w ∧ ∀ px ∈ row, px.length = c := hzshape.2
    have hrow0 : (normalizeImage f0).getD i [] ∈ normalizeImage f0 :=
      getD_mem _ _ _ (by rw [hn1]; exact hi)
    have hrlen : ((normalizeImage f0).getD i []).length = w := (hn2 _ hrow0).1
    have hpx0 : ((normalizeImage f0).getD i []).getD j [] ∈
        (normalizeImage f0).getD i [] :=
      getD_mem _ _ _ (by rw [hrlen]; exact hj)
    have hpxlen : (((normalizeImage f0).getD i []).getD j []).length = c :=
      (hn2 _ hrow0).2 _ hpx0
    have hentry : tensorEntry
        (((f0 :: fs).take F).map (fun i => permuteImg (normalizeImage i)) ++
          List.replicate (F - (f0 :: fs).length)
            (permuteImg (zeroLike (normalizeImage f0)))) t ch i j = 0 := by
      simp only [tensorEntry]
      rw [getItemOut_getD_ge F f0 fs t ht htL]
      rw [permuteImg_entry (zeroLike (normalizeImage f0)) h w c ch i j
        hz1 hz2 hch hi hj]
      simp only [zeroLike]
      rw [map3_getD (fun _ => (0 : ℚ)) (normalizeImage f0) i j ch 0 0
        (by rw [hn1]; exact hi) (by rw [hrlen]; exact hj) (by rw [hpxlen]; exact hch)]
    rw [hentry, if_neg (not_lt.mpr htL)]
    exact ⟨rfl, le_refl 0, by norm_num⟩

theorem c7_pixel_normalization_witness :
    (∀ img ∈ ([[[[51]]]] : List Image), imageWF 1 1 1 img) ∧
    (∀ img ∈ ([[[[51]]]] : List Image), ∀ row ∈ img, ∀ px ∈ row, ∀ p ∈ px, p ≤ 255) ∧
    getItem 2 [[[[51]]]] = .ok [[[[(51 : ℚ) / 255]]], [[[0]]]] ∧
    (∀ t < 2, ∀ ch < 1, ∀ i < 1, ∀ j < 1,
      (tensorEntry [[[[(51 : ℚ) / 255]]], [[[0]]]] t ch i j =
        if t < ([[[[51]]]] : List Image).length then
          (decodedPixel [[[[51]]]] t i j ch : ℚ) / 255 else 0) ∧
      0 ≤ tensorEntry [[[[(51 : ℚ) / 255]]], [[[0]]]] t ch i j ∧
      tensorEntry [[[[(51 : ℚ) / 255]]], [[[0]]]] t ch i j ≤ 1) :=
  ⟨by decide, by decide, by rfl,
    c7_pixel_normalization 2 1 1 1 [[[[51]]]] [[[[(51 : ℚ) / 255]]], [[[0]]]]
      (by decide) (by decide) (by rfl)⟩

/-! ## VideoBehaviorModel.prepare_data (train.py lines 82-110) -/

/-- Lines 87-89: the immediate subdirectories of the dataset root (the
filesystem enumeration `folders`), sorted with `class_names.sort()`.
Python compares strings lexicographically by code point, i.e. the
lexicographic linear order on `List Char`. -/
def classNames (folders : List Str) : List Str :=
  List.insertionSort (· ≤ ·) folders

/-- Line 92: `label_dict = {class_name: idx for idx, class_name in
enumerate(class_names)}`, as an association list in insertion order
(Python dicts preserve insertion order). -/
def labelDict (folders : List Str) : List (Str × Nat) :=
  (classNames folders).enum.map (fun p => (p.2, p.1))

/-- The four parallel output lists of `prepare_data` plus the position `k`
reached in the stream of `np.random.rand()` draws (the global NumPy RNG is
modelled as the sequence `rand 0, rand 1, ...`). -/
structure SplitAcc where
  trainPaths : List Str
  trainLabels : List Nat
  testPaths : List Str
  testLabels : List Nat
  k : Nat
deriving Repr, DecidableEq

def initialSplitAcc : SplitAcc := ⟨[], [], [], [], 0⟩

/-- Lines 96-105, the inner loop over `os.listdir(class_path)`: keep files
ending in `.avi`, join the path, and route to train when
`np.random.rand() < 0.8`, else to test, appending the label in parallel. -/
def routeFiles (rand : Nat → ℚ) (classPath : Str) (label : Nat) :
    List Str → SplitAcc → SplitAcc
  | [], acc => acc
  | name :: rest, acc =>
      if endsWithAvi name then
        if rand acc.k < 4 / 5 then
          routeFiles rand classPath label rest
            { acc with trainPaths := acc.trainPaths ++ [pjoin classPath name],
                       trainLabels := acc.trainLabels ++ [label],
                       k := acc.k + 1 }
        else
          routeFiles rand classPath label rest
            { acc with testPaths := acc.testPaths ++ [pjoin classPath name],
                       testLabels := acc.testLabels ++ [label],
                       k := acc.k + 1 }
      else routeFiles rand classPath label rest acc

/-- Line 94, the outer loop over `label_dict.items()` (visited in insertion
order, i.e. sorted class order). -/
def routeClasses (rand : Nat → ℚ) (root : Str) (listdir : Str → List Str) :
    List (Str × Nat) → SplitAcc → SplitAcc
  | [], acc => acc
  | (cls, label) :: rest, acc =>
      routeClasses rand root listdir rest
        (routeFiles rand (pjoin root cls) label (listdir (pjoin root cls)) acc)

/-- `prepare_data` (lines 82-110): `folders` is the filesystem enumeration
of the immediate subdirectories of `root`, `listdir` enumerates each class
directory, `rand` is the stream of `np.random.rand()` draws. -/
def prepareData (root : Str) (folders : List Str) (listdir : Str → List Str)
    (rand : Nat → ℚ) : SplitAcc :=
  routeClasses rand root listdir (labelDict folders) initialSplitAcc

/-- All enumerated `.avi` files with their class labels, in visit order. -/
def allAviPairs (root : Str) (folders : List Str)
    (listdir : Str → List Str) : List (Str × Nat) :=
  (labelDict folders).flatMap (fun p =>
    ((listdir (pjoin root p.1)).filter endsWithAvi).map
      (fun n => (pjoin (pjoin root p.1) n, p.2)))

/-- The train and test `(path, label)` pairs of an accumulator. -/
def splitPairs (acc : SplitAcc) : List (Str × Nat) :=
  acc.trainPaths.zip acc.trainLabels ++ acc.testPaths.zip acc.testLabels

/-- The path and label lists are parallel (same lengths). -/
abbrev parallelOk (acc : SplitAcc) : Prop :=
  acc.trainPaths.length = acc.trainLabels.length ∧
  acc.testPaths.length = acc.testLabels.length

/-! ### Claim C4: label assignment -/

/-- C4: label assignment in `prepare_data` is a pure function of the set of
class-folder names: two filesystem enumerations of the same folders (any
permutation of each other) produce the identical name-to-label mapping. -/
theorem c4_labels_enumeration_order_independent (l1 l2 : List Str)
    (h : l1.Perm l2) : labelDict l1 = labelDict l2 := by
  have hs : classNames l1 = classNames l2 :=
    List.eq_of_perm_of_sorted
      (((List.perm_insertionSort _ _).trans h).trans
        (List.perm_insertionSort _ _).symm)
      (List.sorted_insertionSort _ _) (List.sorted_insertionSort _ _)
  unfold labelDict
  rw [hs]

theorem c4_labels_witness :
    (([['b'], ['a'], ['c']] : List Str).Perm [['c'], ['a'], ['b']]) ∧
      labelDict [['b'], ['a'], ['c']] = labelDict [['c'], ['a'], ['b']] :=
  ⟨by decide, c4_labels_enumeration_order_independent _ _ (by decide)⟩

/-! ### Claim C5: the train/test split -/

theorem routeFiles_pairs (rand : Nat → ℚ) (cp : Str) (label : Nat)
    (files : List Str) (acc : SplitAcc) (hpar : parallelOk acc) :
    parallelOk (routeFiles rand cp label files acc) ∧
    (splitPairs (routeFiles rand cp label files acc)).Perm
      (splitPairs acc ++
        (files.filter endsWithAvi).map (fun n => (pjoin cp n, label))) := by
  induction files generalizing acc with
  | nil => exact ⟨hpar, by simp [routeFiles]⟩
  | cons name rest ih =>
      by_cases ha : endsWithAvi name
      · by_cases hr : rand acc.k < 4 / 5
        · rw [show routeFiles rand cp label (name :: rest) acc =
              routeFiles rand cp label rest
                { acc with trainPaths := acc.trainPaths ++ [pjoin cp name],
                           trainLabels := acc.trainLabels ++ [label],
                           k := acc.k + 1 } by simp [routeFiles, ha, hr]]
          have hpar2 : parallelOk
              { acc with trainPaths := acc.trainPaths ++ [pjoin cp name],
                         trainLabels := acc.trainLabels ++ [label],
                         k := acc.k + 1 } := by
            refine ⟨?_, hpar.2⟩
            simp [hpar.1]
          obtain ⟨hp3, hperm⟩ := ih _ hpar2
          refine ⟨hp3, hperm.trans ?_⟩
          have hzip : (acc.trainPaths ++ [pjoin cp name]).zip
              (acc.trainLabels ++ [label]) =
              acc.trainPaths.zip acc.trainLabels ++ [(pjoin cp name, label)] := by
            rw [List.zip_append hpar.1]
            rfl
          simp only [splitPairs, hzip, List.filter_cons, ha, List.map_cons, if_pos]
          refine List.perm_iff_count.mpr (fun a => ?_)
          simp only [List.count_append, List.count_cons, List.count_nil]
          omega
        · rw [show routeFiles rand cp label (name :: rest) acc =
              routeFiles rand cp label rest
                { acc with testPaths := acc.testPaths ++ [pjoin cp name],
                           testLabels := acc.testLabels ++ [label],
                           k := acc.k + 1 } by simp [routeFiles, ha, hr]]
          have hpar2 : parallelOk
              { acc with testPaths := acc.testPaths ++ [pjoin cp name],
                         testLabels := acc.testLabels ++ [label],
                         k := acc.k + 1 } := by
            refine ⟨hpar.1, ?_⟩
            simp [hpar.2]
          obtain ⟨hp3, hperm⟩ := ih _ hpar2
          refine ⟨hp3, hperm.trans ?_⟩
          have hzip : (acc.testPaths ++ [pjoin cp name]).zip
              (acc.testLabels ++ [label]) =
              acc.testPaths.zip acc.testLabels ++ [(pjoin cp name, label)] := by
            rw [List.zip_append hpar.2]
            rfl
          simp only [splitPairs, hzip, List.filter_cons, ha, List.map_cons, if_pos]
          refine List.perm_iff_count.mpr (fun a => ?_)
          simp only [List.count_append, List.count_cons, List.count_nil]
          omega
      · rw [show routeFiles rand cp label (name :: rest) acc =
            routeFiles rand cp label rest acc by simp [routeFiles, ha]]
        obtain ⟨hp3, hperm⟩ := ih _ hpar
        refine ⟨hp3, hperm.trans ?_⟩
        simp [List.filter_cons, ha]

theorem routeClasses_pairs (rand : Nat → ℚ) (root : Str)
    (listdir : Str → List Str) (items : List (Str × Nat)) (acc : SplitAcc)
    (hpar : parallelOk acc) :
    parallelOk (routeClasses rand root listdir items acc) ∧
    (splitPairs (routeClasses rand root listdir items acc)).Perm
      (splitPairs acc ++ items.flatMap (fun p =>
        ((listdir (pjoin root p.1)).filter endsWithAvi).map
          (fun n => (pjoin (pjoin root p.1) n, p.2)))) := by
  induction items generalizing acc with
  | nil => exact ⟨hpar, by simp [routeClasses]⟩
  | cons item rest ih =>
      obtain ⟨cls, label⟩ := item
      rw [show routeClasses rand root listdir ((cls, label) :: rest) acc =
          routeClasses rand root listdir rest
            (routeFiles rand (pjoin root cls) label
              (listdir (pjoin root cls)) acc) from rfl]
      obtain ⟨hpar2, hperm2⟩ := routeFiles_pairs rand (pjoin root cls) label
        (listdir (pjoin root cls)) acc hpar
      obtain ⟨hp3, hperm3⟩ := ih _ hpar2
      refine ⟨hp3, hperm3.trans ?_⟩
      refine (hperm2.append_right _).trans ?_
      simp only [List.flatMap_cons, ← List.append_assoc]
      exact List.Perm.refl _

theorem prepareData_pairs (root : Str) (folders : List Str)
    (listdir : Str → List Str) (rand : Nat → ℚ) :
    parallelOk (prepareData root folders listdir rand) ∧
    (splitPairs (prepareData root folders listdir rand)).Perm
      (allAviPairs root folders listdir) := by
  obtain ⟨h1, h2⟩ := routeClasses_pairs rand root listdir (labelDict folders)
    initialSplitAcc ⟨rfl, rfl⟩
  refine ⟨h1, ?_⟩
  simpa [splitPairs, initialSplitAcc, allAviPairs] using h2

theorem prepareData_paths_perm (root : Str) (folders : List Str)
    (listdir : Str → List Str) (rand : Nat → ℚ) :
    ((prepareData root folders listdir rand).trainPaths ++
      (prepareData root folders listdir rand).testPaths).Perm
      ((allAviPairs root folders listdir).map Prod.fst) := by
  obtain ⟨⟨hl1, hl2⟩, hperm⟩ := prepareData_pairs root folders listdir rand
  have hm := hperm.map Prod.fst
  rwa [splitPairs, List.map_append, List.map_fst_zip _ _ (le_of_eq hl1),
    List.map_fst_zip _ _ (le_of_eq hl2)] at hm

/-- C5: every enumerated `.avi` video file is assigned to exactly one of the
train and test sets, with its class label appended to the corresponding
parallel label list: the path and label lists stay parallel, the train and
test `(path, label)` pairs together are a permutation of all enumerated
`.avi` files with their class labels, and (when the enumerated paths are
distinct) each path lands in exactly one of the two path lists. -/
theorem c5_each_file_exactly_one_split (root : Str) (folders : List Str)
    (listdir : Str → List Str) (rand : Nat → ℚ)
    (hnd : ((allAviPairs root folders listdir).map Prod.fst).Nodup) :
    ((prepareData root folders listdir rand).trainPaths.length =
        (prepareData root folders listdir rand).trainLabels.length ∧
      (prepareData root folders listdir rand).testPaths.length =
        (prepareData root folders listdir rand).testLabels.length) ∧
    (splitPairs (prepareData root folders listdir rand)).Perm
      (allAviPairs root folders listdir) ∧
    ∀ p ∈ (allAviPairs root folders listdir).map Prod.fst,
      (p ∈ (prepareData root folders listdir rand).trainPaths ∧
        p ∉ (prepareData root folders listdir rand).testPaths) ∨
      (p ∉ (prepareData root folders listdir rand).trainPaths ∧
        p ∈ (prepareData root folders listdir rand).testPaths) := by
  obtain ⟨hpar, hperm⟩ := prepareData_pairs root folders listdir rand
  have hpaths := prepareData_paths_perm root folders listdir rand
  refine ⟨hpar, hperm, ?_⟩
  intro p hp
  have hmem : p ∈ (prepareData root folders listdir rand).trainPaths ++
      (prepareData root folders listdir rand).testPaths :=
    hpaths.mem_iff.mpr hp
  have hnd2 : ((prepareData root folders listdir rand).trainPaths ++
      (prepareData root folders listdir rand).testPaths).Nodup :=
    hpaths.nodup_iff.mpr hnd
  have hdisj := List.disjoint_of_nodup_append hnd2
  rcases List.mem_append.mp hmem with h | h
  · exact Or.inl ⟨h, fun hc => hdisj h hc⟩
  · exact Or.inr ⟨fun hc => hdisj hc h, h⟩

/-- A concrete scenario: one class folder `a` under root `r` containing
`x.avi`, `y.avi` and `z`, with RNG draws 0, 1, 1, ... . -/
def wRoot : Str := ['r']

def wFolders : List Str := [['a']]

def wListdir : Str → List Str :=
  fun _ => [['x', '.', 'a', 'v', 'i'], ['y', '.', 'a', 'v', 'i'], ['z']]

def wRand : Nat → ℚ := fun k => if k = 0 then 0 else 1

theorem c5_each_file_exactly_one_split_witness :
    ((allAviPairs wRoot wFolders wListdir).map Prod.fst).Nodup ∧
    (((prepareData wRoot wFolders wListdir wRand).trainPaths.length =
        (prepareData wRoot wFolders wListdir wRand).trainLabels.length ∧
      (prepareData wRoot wFolders wListdir wRand).testPaths.length =
        (prepareData wRoot wFolders wListdir wRand).testLabels.length) ∧
    (splitPairs (prepareData wRoot wFolders wListdir wRand)).Perm
      (allAviPairs wRoot wFolders wListdir) ∧
    ∀ p ∈ (allAviPairs wRoot wFolders wListdir).map Prod.fst,
      (p ∈ (prepareData wRoot wFolders wListdir wRand).trainPaths ∧
        p ∉ (prepareData wRoot wFolders wListdir wRand).testPaths) ∨
      (p ∉ (prepareData wRoot wFolders wListdir wRand).trainPaths ∧
        p ∈ (prepareData wRoot wFolders wListdir wRand).testPaths)) :=
  ⟨by decide,
    c5_each_file_exactly_one_split wRoot wFolders wListdir wRand (by decide)⟩

/-! ### Claim C10: only .avi files are indexed -/

/-- If a joined path ends in `.avi`, the file-name component already ends in
`.avi`: the separator `/` cannot overlap the suffix. -/
theorem avi_suffix_of_join (c n : Str) (h : aviSuffix <:+ pjoin c n) :
    aviSuffix <:+ n := by
  have hn : '/' :: n <:+ pjoin c n := List.suffix_append c ('/' :: n)
  rcases List.suffix_or_suffix_of_suffix h hn with h1 | h1
  · rcases List.suffix_cons_iff.mp h1 with h2 | h2
    · exfalso
      have h3 : ('.' :: ['a', 'v', 'i'] : Str) = '/' :: n := h2
      injection h3 with h4 h5
      exact absurd h4 (by decide)
    · exact h2
  · exfalso
    have hm : ('/' : Char) ∈ aviSuffix := h1.subset (List.mem_cons_self _ _)
    exact absurd hm (by decide)

/-- Every path placed in the train or test list is a join of an `.avi`
file name, hence ends in `.avi`. -/
theorem mem_paths_avi (root : Str) (folders : List Str)
    (listdir : Str → List Str) (rand : Nat → ℚ) (p : Str)
    (hp : p ∈ (prepareData root folders listdir rand).trainPaths ∨
          p ∈ (prepareData root folders listdir rand).testPaths) :
    aviSuffix <:+ p := by
  have hpaths := prepareData_paths_perm root folders listdir rand
  have hmem : p ∈ (allAviPairs root folders listdir).map Prod.fst := by
    refine hpaths.mem_iff.mp (List.mem_append.mpr ?_)
    exact hp
  simp only [allAviPairs, List.mem_map, List.mem_flatMap, List.mem_filter] at hmem
  obtain ⟨x, ⟨pr, hpr, n, ⟨hnmem, hnavi⟩, hx⟩, hfst⟩ := hmem
  have havi : aviSuffix <:+ n := of_decide_eq_true hnavi
  have hsuffix : aviSuffix <:+ pjoin (pjoin root pr.1) n :=
    havi.trans ((List.suffix_cons '/' n).trans
      (List.suffix_append (pjoin root pr.1) ('/' :: n)))
  rw [← hfst, ← hx]
  exact hsuffix

/-- C10: `prepare_data` indexes only files whose names end with `.avi`:
for every directory tree, a file whose name does not end with `.avi`
appears (as its joined path) in neither the train nor the test output
sequences. -/
theorem c10_non_avi_files_excluded (root : Str) (folders : List Str)
    (listdir : Str → List Str) (rand : Nat → ℚ) (cp name : Str)
    (hnot : ¬ aviSuffix <:+ name) :
    pjoin cp name ∉ (prepareData root folders listdir rand).trainPaths ∧
    pjoin cp name ∉ (prepareData root folders listdir rand).testPaths := by
  refine ⟨fun hmem => hnot ?_, fun hmem => hnot ?_⟩
  · exact avi_suffix_of_join cp name
      (mem_paths_avi root folders listdir rand _ (Or.inl hmem))
  · exact avi_suffix_of_join cp name
      (mem_paths_avi root folders listdir rand _ (Or.inr hmem))

theorem c10_non_avi_files_excluded_witness :
    (¬ aviSuffix <:+ (['z'] : Str)) ∧
    (pjoin (pjoin wRoot ['a']) ['z'] ∉
        (prepareData wRoot wFolders wListdir wRand).trainPaths ∧
      pjoin (pjoin wRoot ['a']) ['z'] ∉
        (prepareData wRoot wFolders wListdir wRand).testPaths) :=
  ⟨by decide,
    c10_non_avi_files_excluded wRoot wFolders wListdir wRand (pjoin wRoot ['a'])
      ['z'] (by decide)⟩

/-! ## VideoLSTMTransformerModel (train.py lines 11-25)

Shape-level semantics of the forward pass.  The PyTorch layers check the
relevant dimensions at run time, so the forward pass is modelled as a
computation on shapes that raises exactly where the layers raise. -/

/-- Shape of a batched sequence tensor `(batch, seq_len, features)`. -/
structure Seq3Shape where
  batch : Nat
  seqLen : Nat
  features : Nat
deriving Repr, DecidableEq

/-- Line 21: `x.reshape(batch_size, seq_len, -1)` on a `(b, t, c, h, w)`
tensor flattens channel and spatial dimensions into one feature axis. -/
def reshapeFlatten (b t c h w : Nat) : Seq3Shape := ⟨b, t, c * h * w⟩

/-- `nn.LSTM(input_size, hidden_size, batch_first=True)` applied to a 3-D
input (line 22): requires `input.size(-1) == input_size` and returns a
`(batch, seq_len, hidden_size)` output. -/
def lstmForward (inputSize hiddenSize : Nat) (s : Seq3Shape) :
    Except String Seq3Shape :=
  if s.features = inputSize then .ok ⟨s.batch, s.seqLen, hiddenSize⟩
  else .error "RuntimeError: input.size(-1) must be equal to input_size"

/-- `nn.Transformer(d_model=hidden_size, nhead=8, ..., batch_first=True)`
applied to batched `src`/`tgt` (line 23): requires equal batch sizes and
feature size `d_model` on both sides; returns the target shape. -/
def transformerForward (dModel : Nat) (src tgt : Seq3Shape) :
    Except String Seq3Shape :=
  if src.batch ≠ tgt.batch then
    .error "RuntimeError: the batch number of src and tgt must be equal"
  else if src.features ≠ dModel ∨ tgt.features ≠ dModel then
    .error "RuntimeError: the feature number of src and tgt must be equal to d_model"
  else .ok ⟨tgt.batch, tgt.seqLen, dModel⟩

/-- Line 24: `transformer_out[:, -1, :]`: the negative index `-1` requires a
non-empty time dimension and yields a `(batch, features)` matrix. -/
def lastStep (s : Seq3Shape) : Except String (Nat × Nat) :=
  if s.seqLen = 0 then .error "IndexError: index -1 is out of bounds"
  else .ok (s.batch, s.features)

/-- `self.fc = nn.Linear(hidden_size, num_classes)` applied on line 24:
requires the input feature size to equal `in_features`. -/
def linearForward (inFeatures outFeatures : Nat) (s : Nat × Nat) :
    Except String (Nat × Nat) :=
  if s.2 = inFeatures then .ok (s.1, outFeatures)
  else .error "RuntimeError: mat1 and mat2 shapes cannot be multiplied"

/-- `VideoLSTMTransformerModel.forward` (lines 19-25) at shape level, for a
model built with `(input_size, hidden_size, num_classes)` and an input
tensor of shape `(b, t, c, h, w)`. -/
def modelForward (inputSize hiddenSize numClasses b t c h w : Nat) :
    Except String (Nat × Nat) := do
  let lstmOut ← lstmForward inputSize hiddenSize (reshapeFlatten b t c h w)
  let transformerOut ← transformerForward hiddenSize lstmOut lstmOut
  let last ← lastStep transformerOut
  linearForward hiddenSize numClasses last

/-- When the flattened feature size matches the LSTM `input_size` and the
sequence is non-empty, the forward pass returns `(batch, num_classes)`
logits. -/
theorem modelForward_ok (inputSize hiddenSize numClasses b t c h w : Nat)
    (hfit : c * h * w = inputSize) (ht : 0 < t) :
    modelForward inputSize hiddenSize numClasses b t c h w =
      .ok (b, numClasses) := by
  simp [modelForward, lstmForward, transformerForward, lastStep, linearForward,
    reshapeFlatten, hfit, Nat.pos_iff_ne_zero.mp ht, Bind.bind, Except.bind]

/-- C2: the model constructed by the pipeline (`input_size=224`,
`hidden_size=512`, `num_classes=101`) applied to a batch of the pipeline's
own data (batch 8, 100 frames of shape 3×224×224) does not return logits:
the LSTM rejects the flattened feature vector, since
`3 * 224 * 224 = 150528 ≠ 224`.  Every run of the script fails here. -/
theorem c2_pipeline_forward_rejects_own_data :
    modelForward 224 512 101 8 100 3 224 224 =
      .error "RuntimeError: input.size(-1) must be equal to input_size" := rfl

/-! ## Training and evaluation loops (train.py lines 123-170) -/

/-- Python float division `a / b`: raises `ZeroDivisionError` when `b = 0`. -/
def pyDiv (a b : ℚ) : Except String ℚ :=
  if b = 0 then .error "ZeroDivisionError: division by zero" else .ok (a / b)

/-- The operations train.py delegates to the ML framework, abstracted over
the model-state type `μ` and the per-sample input type `α`:
`predict m x` is the argmax taken by `torch.max(outputs, 1)` for sample `x`
under parameters `m`; `lossVal m batch` is `criterion(outputs, labels).item()`;
`stepUpd m batch` is the parameter update done by `loss.backward()` followed
by `optimizer.step()`. -/
structure TorchOps (μ α : Type) where
  predict : μ → α → Nat
  lossVal : μ → List (α × Nat) → ℚ
  stepUpd : μ → List (α × Nat) → μ

/-- The per-epoch accumulators of `train_model` (lines 129-131). -/
structure EpochState (μ : Type) where
  model : μ
  runningLoss : ℚ
  correct : Nat
  total : Nat

/-- One iteration of the batch loop (lines 132-144): forward, loss,
backward + optimizer step, then accumulate running loss, correct count and
total count.  `predicted` comes from the outputs of the pre-step parameters
(line 136 runs the forward pass before line 139 steps). -/
def runBatch {μ α : Type} (ops : TorchOps μ α) (st : EpochState μ)
    (batch : List (α × Nat)) : EpochState μ :=
  { model := ops.stepUpd st.model batch,
    runningLoss := st.runningLoss + ops.lossVal st.model batch,
    correct := st.correct +
      (batch.filter (fun s => ops.predict st.model s.1 == s.2)).length,
    total := st.total + batch.length }

/-- One epoch of the training loop (lines 128-144). -/
def trainEpoch {μ α : Type} (ops : TorchOps μ α) (m : μ)
    (batches : List (List (α × Nat))) : EpochState μ :=
  batches.foldl (runBatch ops) ⟨m, 0, 0, 0⟩

/-- The epoch loop of `train_model` (lines 127-153): run the batch loop,
then `accuracy = 100 * correct / total` (line 146) and
`running_loss / len(train_loader)` (line 147), appending to the loss and
accuracy histories.  `epochBatches e` is the (shuffled) batch list the
DataLoader yields in epoch `e`; `rem` counts the remaining epochs. -/
def trainLoop {μ α : Type} (ops : TorchOps μ α)
    (epochBatches : Nat → List (List (α × Nat))) :
    Nat → Nat → μ → Except String (List ℚ × List ℚ)
  | _, 0, _ => .ok ([], [])
  | e, rem + 1, m =>
      let st := trainEpoch ops m (epochBatches e)
      do
        let accuracy ← pyDiv (100 * (st.correct : ℚ)) (st.total : ℚ)
        let meanLoss ← pyDiv st.runningLoss ((epochBatches e).length : ℚ)
        let rest ← trainLoop ops epochBatches (e + 1) rem st.model
        .ok (meanLoss :: rest.1, accuracy :: rest.2)

/-- `train_model` (lines 123-153): returns the `(train_losses,
train_accuracies)` histories, or the first raised error. -/
def trainModel {μ α : Type} (ops : TorchOps μ α) (m0 : μ)
    (epochBatches : Nat → List (List (α × Nat))) (epochs : Nat) :
    Except String (List ℚ × List ℚ) :=
  trainLoop ops epochBatches 0 epochs m0

/-- A module as `test_model` sees it: the learned parameters plus the
train/eval mode flag toggled by `model.train()` / `model.eval()`. -/
structure NNModule (π : Type) where
  params : π
  training : Bool

/-- `model.eval()` (line 157): switches to inference mode; the parameters
are untouched. -/
def evalMode {π : Type} (m : NNModule π) : NNModule π := { m with training := false }

/-- The accumulation loop of `test_model` (lines 160-166), run under
`torch.no_grad()`: predictions are a pure function of the parameters, and
no update ever touches them. -/
def testStep {π α : Type} (predict : π → α → Nat) (p : π)
    (ct : Nat × Nat) (batch : List (α × Nat)) : Nat × Nat :=
  (ct.1 + (batch.filter (fun s => predict p s.1 == s.2)).length,
    ct.2 + batch.length)

def testAccum {π α : Type} (predict : π → α → Nat) (p : π)
    (batches : List (List (α × Nat))) : Nat × Nat :=
  batches.foldl (testStep predict p) (0, 0)

/-- `test_model` (lines 156-170): switch to eval mode, accumulate
correct/total over one pass of the test loader, and return
`100 * correct / total` together with the module it leaves behind. -/
def testModel {π α : Type} (predict : π → α → Nat) (m : NNModule π)
    (batches : List (List (α × Nat))) : Except String (ℚ × NNModule π) := do
  let accuracy ← pyDiv (100 * ((testAccum predict (evalMode m).params batches).1 : ℚ))
    ((testAccum predict (evalMode m).params batches).2 : ℚ)
  .ok (accuracy, evalMode m)

/-! ### Claim C6: the per-epoch accounting invariant -/

theorem foldl_runBatch_total {μ α : Type} (ops : TorchOps μ α)
    (batches : List (List (α × Nat))) (st : EpochState μ) :
    (batches.foldl (runBatch ops) st).total =
      st.total + (batches.map List.length).sum := by
  induction batches generalizing st with
  | nil => simp
  | cons b rest ih =>
      simp only [List.foldl_cons, List.map_cons, List.sum_cons]
      rw [ih]
      simp only [runBatch]
      omega

theorem trainEpoch_total {μ α : Type} (ops : TorchOps μ α) (m : μ)
    (batches : List (List (α × Nat))) :
    (trainEpoch ops m batches).total = (batches.map List.length).sum := by
  unfold trainEpoch
  rw [foldl_runBatch_total]
  simp

theorem foldl_runBatch_correct_le {μ α : Type} (ops : TorchOps μ α)
    (batches : List (List (α × Nat))) (st : EpochState μ)
    (h : st.correct ≤ st.total) :
    (batches.foldl (runBatch ops) st).correct ≤
      (batches.foldl (runBatch ops) st).total := by
  induction batches generalizing st with
  | nil => simpa
  | cons b rest ih =>
      simp only [List.foldl_cons]
      apply ih
      simp only [runBatch]
      have hf := List.length_filter_le (fun s => ops.predict st.model s.1 == s.2) b
      omega

theorem trainEpoch_correct_le {μ α : Type} (ops : TorchOps μ α) (m : μ)
    (batches : List (List (α × Nat))) :
    (trainEpoch ops m batches).correct ≤ (trainEpoch ops m batches).total :=
  foldl_runBatch_correct_le ops batches ⟨m, 0, 0, 0⟩ (le_refl 0)

/-- The accuracy `100 * correct / total` of a completed epoch is in
`[0, 100]` whenever `total > 0`. -/
theorem epoch_accuracy_bounds (correct total : Nat) (hle : correct ≤ total)
    (hpos : 0 < total) :
    0 ≤ 100 * (correct : ℚ) / (total : ℚ) ∧
      100 * (correct : ℚ) / (total : ℚ) ≤ 100 := by
  have htq : (0 : ℚ) < (total : ℚ) := by exact_mod_cast hpos
  constructor
  · positivity
  · rw [div_le_iff₀ htq]
    have : (correct : ℚ) ≤ (total : ℚ) := by exact_mod_cast hle
    nlinarith

theorem trainLoop_ok {μ α : Type} (ops : TorchOps μ α)
    (dataset : List (α × Nat)) (epochBatches : Nat → List (List (α × Nat))) :
    ∀ (rem e : Nat) (m : μ),
      (∀ i, e ≤ i → i < e + rem → ((epochBatches i).flatten).Perm dataset) →
      dataset ≠ [] →
      ∃ losses accs, trainLoop ops epochBatches e rem m = .ok (losses, accs) ∧
        accs.length = rem ∧ ∀ a ∈ accs, 0 ≤ a ∧ a ≤ 100 := by
  intro rem
  induction rem with
  | zero => exact fun e m _ _ => ⟨[], [], rfl, rfl, by simp⟩
  | succ n ih =>
      intro e m hcov hne
      have hperm := hcov e (le_refl e) (by omega)
      have htot : (trainEpoch ops m (epochBatches e)).total = dataset.length := by
        rw [trainEpoch_total, ← List.length_flatten]
        exact hperm.length_eq
      have hdne : dataset.length ≠ 0 := fun hz => hne (List.length_eq_zero.mp hz)
      have htne : ((trainEpoch ops m (epochBatches e)).total : ℚ) ≠ 0 := by
        rw [htot]
        exact_mod_cast hdne
      have hbne : (((epochBatches e).length : ℚ)) ≠ 0 := by
        have hb : epochBatches e ≠ [] := by
          intro hb
          apply hne
          have hpn : ([] : List (α × Nat)).Perm dataset := by
            have := hperm
            rw [hb] at this
            simpa using this
          exact hpn.symm.eq_nil
        exact_mod_cast fun hz => hb (List.length_eq_zero.mp hz)
      obtain ⟨ls, accs, hrec, hlen, hbnd⟩ := ih (e + 1)
        (trainEpoch ops m (epochBatches e)).model
        (fun i hi1 hi2 => hcov i (by omega) (by omega)) hne
      have hacc := epoch_accuracy_bounds (trainEpoch ops m (epochBatches e)).correct
        (trainEpoch ops m (epochBatches e)).total
        (trainEpoch_correct_le ops m (epochBatches e))
        (by rw [htot]; exact Nat.pos_of_ne_zero hdne)
      refine ⟨(trainEpoch ops m (epochBatches e)).runningLoss /
          ((epochBatches e).length : ℚ) :: ls,
        100 * ((trainEpoch ops m (epochBatches e)).correct : ℚ) /
          ((trainEpoch ops m (epochBatches e)).total : ℚ) :: accs, ?_, ?_, ?_⟩
      · simp only [trainLoop, pyDiv, if_neg htne, if_neg hbne, Bind.bind, Except.bind]
        rw [hrec]
      · simp [hlen]
      · intro a ha
        rcases List.mem_cons.mp ha with rfl | ha
        · exact hacc
        · exact hbnd a ha

/-- C6: at the end of every epoch of `train_model`, the accumulated `total`
prediction count equals the number of samples in the train set (the
DataLoader's shuffled batch lists of each epoch are a permutation of the
dataset, so every sample is counted exactly once per epoch), and every
recorded epoch accuracy `100 * correct / total` lies in `[0, 100]`. -/
theorem c6_epoch_total_and_accuracy {μ α : Type} (ops : TorchOps μ α)
    (dataset : List (α × Nat)) (epochBatches : Nat → List (List (α × Nat)))
    (m0 : μ) (epochs : Nat)
    (hcover : ∀ e, e < epochs → ((epochBatches e).flatten).Perm dataset)
    (hne : dataset ≠ []) :
    (∀ (m : μ) (e : Nat), e < epochs →
      (trainEpoch ops m (epochBatches e)).total = dataset.length) ∧
    ∃ losses accs, trainModel ops m0 epochBatches epochs = .ok (losses, accs) ∧
      accs.length = epochs ∧ ∀ a ∈ accs, 0 ≤ a ∧ a ≤ 100 := by
  constructor
  · intro m e he
    rw [trainEpoch_total, ← List.length_flatten]
    exact (hcover e he).length_eq
  · exact trainLoop_ok ops dataset epochBatches epochs 0 m0
      (fun i hi1 hi2 => hcover i (by omega)) hne

/-- A concrete training scenario for the loop theorems: parity classifier,
constant loss, parameterless model. -/
def wOps : TorchOps Unit Nat :=
  ⟨fun _ x => x % 2, fun _ _ => 1, fun m _ => m⟩

def wDataset : List (Nat × Nat) := [(0, 0), (1, 1)]

def wBatches : Nat → List (List (Nat × Nat)) := fun _ => [[(0, 0)], [(1, 1)]]

theorem c6_epoch_total_and_accuracy_witness :
    (∀ e, e < 2 → ((wBatches e).flatten).Perm wDataset) ∧ wDataset ≠ [] ∧
    ((∀ (m : Unit) (e : Nat), e < 2 →
      (trainEpoch wOps m (wBatches e)).total = wDataset.length) ∧
    ∃ losses accs, trainModel wOps () wBatches 2 = .ok (losses, accs) ∧
      accs.length = 2 ∧ ∀ a ∈ accs, 0 ≤ a ∧ a ≤ 100) :=
  ⟨fun e he => by
      have h : (wBatches e).flatten = wDataset := rfl
      rw [h],
    by decide,
    c6_epoch_total_and_accuracy wOps wDataset wBatches () 2
      (fun e he => by
        have h : (wBatches e).flatten = wDataset := rfl
        rw [h])
      (by decide)⟩

/-! ### Claims C8 and C9: test_model and the empty-set division -/

theorem testStep_foldl {π α : Type} (predict : π → α → Nat) (p : π)
    (batches : List (List (α × Nat))) (init : Nat × Nat) :
    (batches.foldl (testStep predict p) init).2 =
      init.2 + (batches.map List.length).sum ∧
    (init.1 ≤ init.2 →
      (batches.foldl (testStep predict p) init).1 ≤
        (batches.foldl (testStep predict p) init).2) := by
  induction batches generalizing init with
  | nil => simp
  | cons b rest ih =>
      simp only [List.foldl_cons, List.map_cons, List.sum_cons]
      obtain ⟨h1, h2⟩ := ih (testStep predict p init b)
      refine ⟨?_, fun hle => ?_⟩
      · rw [h1]
        simp only [testStep]
        omega
      · apply h2
        simp only [testStep]
        have hf := List.length_filter_le (fun s => predict p s.1 == s.2) b
        omega

theorem testAccum_spec {π α : Type} (predict : π → α → Nat) (p : π)
    (batches : List (List (α × Nat))) :
    (testAccum predict p batches).2 = (batches.map List.length).sum ∧
    (testAccum predict p batches).1 ≤ (testAccum predict p batches).2 := by
  obtain ⟨h1, h2⟩ := testStep_foldl predict p batches (0, 0)
  exact ⟨by simpa using h1, h2 (le_refl 0)⟩

/-- C8: for every model and non-empty test loader, `test_model` iterates
the test set exactly once (the accumulated `total` equals the test-set
size), returns the percentage accuracy `100 * correct / total`, which lies
in `[0, 100]`, and leaves the model's parameters unchanged — the returned
module differs from the input only in the train/eval mode flag, and the
loop (run without gradient tracking) never writes to the parameters. -/
theorem c8_test_model_accuracy_and_frame {π α : Type}
    (predict : π → α → Nat) (m : NNModule π) (testSet : List (α × Nat))
    (batches : List (List (α × Nat)))
    (hcover : batches.flatten = testSet) (hne : testSet ≠ []) :
    (testAccum predict (evalMode m).params batches).2 = testSet.length ∧
    ∃ acc, testModel predict m batches = .ok (acc, evalMode m) ∧
      (evalMode m).params = m.params ∧ 0 ≤ acc ∧ acc ≤ 100 := by
  obtain ⟨htot, hcle⟩ := testAccum_spec predict (evalMode m).params batches
  have htotlen : (testAccum predict (evalMode m).params batches).2 =
      testSet.length := by
    rw [htot, ← List.length_flatten, hcover]
  have hpos : 0 < testSet.length := List.length_pos.mpr hne
  have hne2 : ((testAccum predict (evalMode m).params batches).2 : ℚ) ≠ 0 := by
    rw [htotlen]
    exact_mod_cast Nat.pos_iff_ne_zero.mp hpos
  obtain ⟨hnn, hle⟩ := epoch_accuracy_bounds
    (testAccum predict (evalMode m).params batches).1
    (testAccum predict (evalMode m).params batches).2 hcle (by omega)
  refine ⟨htotlen,
    100 * ((testAccum predict (evalMode m).params batches).1 : ℚ) /
      ((testAccum predict (evalMode m).params batches).2 : ℚ), ?_, rfl, hnn, hle⟩
  simp only [testModel, pyDiv, if_neg hne2, Bind.bind, Except.bind]

theorem c8_test_model_witness :
    (([[(0, 0)], [(1, 1)]] : List (List (Nat × Nat))).flatten = wDataset ∧
      wDataset ≠ []) ∧
    ((testAccum (fun (_ : Unit) (x : Nat) => x % 2)
        (evalMode ⟨(), true⟩).params [[(0, 0)], [(1, 1)]]).2 = wDataset.length ∧
    ∃ acc, testModel (fun (_ : Unit) (x : Nat) => x % 2) ⟨(), true⟩
        [[(0, 0)], [(1, 1)]] = .ok (acc, evalMode ⟨(), true⟩) ∧
      (evalMode (⟨(), true⟩ : NNModule Unit)).params =
        (⟨(), true⟩ : NNModule Unit).params ∧ 0 ≤ acc ∧ acc ≤ 100) :=
  ⟨⟨by decide, by decide⟩,
    c8_test_model_accuracy_and_frame (fun (_ : Unit) (x : Nat) => x % 2)
      ⟨(), true⟩ wDataset [[(0, 0)], [(1, 1)]] (by decide) (by decide)⟩

/-- C9: with an empty test set the loader yields no batches and
`test_model` raises `ZeroDivisionError` at `accuracy = 100 * correct /
total` (line 168); with an empty train set `train_model` raises the same
error at line 146 in its first epoch, for every positive epoch count, so
neither returns a value. -/
theorem c9_empty_sets_zero_division {π α μ β : Type}
    (predict : π → α → Nat) (m : NNModule π) (ops : TorchOps μ β) (m0 : μ)
    (epochs : Nat) (hpos : 0 < epochs) :
    testModel predict m [] = .error "ZeroDivisionError: division by zero" ∧
    trainModel ops m0 (fun _ => []) epochs =
      .error "ZeroDivisionError: division by zero" := by
  constructor
  · rfl
  · cases epochs with
    | zero => exact absurd hpos (by omega)
    | succ n => rfl

theorem c9_empty_sets_zero_division_witness :
    0 < 3 ∧
    (testModel (fun (_ : Unit) (x : Nat) => x % 2) ⟨(), true⟩ [] =
        .error "ZeroDivisionError: division by zero" ∧
      trainModel wOps () (fun _ => []) 3 =
        .error "ZeroDivisionError: division by zero") :=
  ⟨by decide,
    c9_empty_sets_zero_division (fun (_ : Unit) (x : Nat) => x % 2)
      ⟨(), true⟩ wOps () 3 (by decide)⟩
